import Mathlib

/-!
Verification of the bookmark-dlp batched download pipeline.

This file gives a shallow embedding of the JavaScript source of the
repository (src/index.js, src/src/downloader.js, src/src/metadata.js and
the legacy variant in src/unnamed/part_002) and proves, or refutes,
properties of the batch scheduler, the single-item download task, the
probe-output parser, the format selector, the filename sanitizer and the
thumbnail fetcher.

Machine-level JavaScript values are modelled as follows: strings are Lean
`String`, the parse result of `JSON.parse` is an explicit `Json` value (the
parser itself, a Node builtin, is an uninterpreted parameter), promise
resolution/rejection is an explicit sum (`TaskResult`), and the external
world seen by one task (subprocess results, HTTP responses, tag-write
results) is a record of oracles (`TaskEnv`).
-/

deriving instance DecidableEq for Except

namespace BookmarkDlp

/-! ## JavaScript string and truthiness helpers -/

/-- JS `a || b` for an optionally-present string `a` (`undefined` and the
empty string are falsy). Mirrors expressions such as
`options.outputDir || '.'` in src/src/downloader.js. -/
def jsOrString (a : Option String) (b : String) : String :=
  match a with
  | none => b
  | some s => if s = "" then b else s

/-- JS `a || b` for two optionally-present strings, e.g.
`json.uploader || json.channel` (src/src/downloader.js line 107). -/
def jsOrOpt (a b : Option String) : Option String :=
  match a with
  | none => b
  | some s => if s = "" then b else some s

/-- Test whether the pattern is a leading segment of the character list. -/
def leadsWith : List Char → List Char → Bool
  | [], _ => true
  | _ :: _, [] => false
  | p :: ps, c :: cs => p == c && leadsWith ps cs

/-- Test whether the pattern occurs as a contiguous segment. -/
def occursIn (pat : List Char) : List Char → Bool
  | [] => leadsWith pat []
  | c :: cs => leadsWith pat (c :: cs) || occursIn pat cs

/-- JS `s.includes(sub)`: substring occurrence test. -/
def includesSub (s sub : String) : Bool :=
  occursIn sub.data s.data

/-- Worker for `splitLines`. -/
def splitLinesAux : List Char → List Char → List String
  | [], acc => [String.mk acc.reverse]
  | c :: cs, acc =>
    if c = '\n' then String.mk acc.reverse :: splitLinesAux cs []
    else splitLinesAux cs (c :: acc)

/-- JS `s.split('\n')`: the list of newline-separated lines (the empty
string yields one empty line, as in JS). -/
def splitLines (s : String) : List String :=
  splitLinesAux s.data []

/-- JS `Array.prototype.join(sep)`. -/
def joinWith (sep : String) : List String → String
  | [] => ""
  | [s] => s
  | s :: rest => s ++ sep ++ joinWith sep rest

/-! ## Filename sanitizer (src/src/downloader.js lines 58-62)

`json.title.replace(/[\/\\?%*:|<>]/g, '_').replace(/\s+/g, '_')
 .replace(/[^a-zA-Z0-9._-]/g, '').toLowerCase()` -/

/-- Characters of the character class `[/\\?%*:|<>]` in the first
`replace` of the sanitizer. -/
def invalidChars : List Char :=
  ['/', '\\', '?', '%', '*', ':', '|', '<', '>']

/-- First sanitizer step: replace each invalid character with an
underscore. -/
def replaceInvalid (c : Char) : Char :=
  if c ∈ invalidChars then '_' else c

/-- Whitespace as matched by the regex `\s` (ASCII part; the inputs in the
claims contain only plain spaces). -/
def isJsWs (c : Char) : Bool :=
  c == ' ' || c == '\t' || c == '\n' || c == '\r' || c == '\x0b' || c == '\x0c'

/-- Worker for the second sanitizer step; the flag records whether the
previous character belonged to a whitespace run already replaced. -/
def collapseWsAux : Bool → List Char → List Char
  | _, [] => []
  | inWs, c :: cs =>
    if isJsWs c then
      if inWs then collapseWsAux true cs else '_' :: collapseWsAux true cs
    else c :: collapseWsAux false cs

/-- Second sanitizer step: `replace(/\s+/g, '_')` collapses every maximal
run of whitespace into a single underscore. -/
def collapseWs (l : List Char) : List Char :=
  collapseWsAux false l

/-- Character class `[a-zA-Z0-9._-]` kept by the third sanitizer step. -/
def keepChar (c : Char) : Bool :=
  ('a' ≤ c && c ≤ 'z') || ('A' ≤ c && c ≤ 'Z') || ('0' ≤ c && c ≤ '9') ||
  c == '.' || c == '_' || c == '-'

/-- The full sanitizer pipeline of src/src/downloader.js lines 58-62
(identical in src/index.js and in the legacy src/unnamed/part_002). -/
def sanitize (s : String) : String :=
  String.mk ((collapseWs (s.data.map replaceInvalid)).filter keepChar |>.map Char.toLower)

/-! ## Probe JSON model

The probe invocation `yt-dlp -F -J "<link>"` returns text whose lines are
fed to `JSON.parse`.  A parsed JSON value is either the object consumed by
the pipeline (`ProbeJson`, carrying exactly the fields the code reads) or
a non-object JSON value (null, boolean, number, string), which matters for
the truthiness check `if (!json)` and for field access. -/

/-- One entry of `json.formats`: the code reads `format_id` and
`resolution` (`resolution` may be absent, hence `Option`). -/
structure FormatDesc where
  format_id : String
  resolution : Option String
deriving DecidableEq, Repr

/-- The fields of the probe JSON object read by the code; each scalar
field may be absent (JS `undefined`). -/
structure ProbeJson where
  title : Option String := none
  uploader : Option String := none
  channel : Option String := none
  album : Option String := none
  upload_date : Option String := none
  description : Option String := none
  webpage_url : Option String := none
  categories : Option (List String) := none
  thumbnail : Option String := none
  formats : List FormatDesc := []
deriving DecidableEq, Repr

/-- A JSON value as produced by `JSON.parse` on one output line. -/
inductive Json where
  | jbool (b : Bool)
  | jnull
  | jnum (n : Int)
  | jstr (s : String)
  | jobj (o : ProbeJson)
deriving DecidableEq, Repr

/-- JS truthiness of a parsed JSON value (`if (!json)`).  Arrays and
objects are always truthy; `false`, `null`, `0` and `""` are falsy.
JSON numbers are embedded as integers; this loses nothing here because
every fractional JSON number other than `0` is truthy as well. -/
def truthy : Json → Bool
  | .jbool b => b
  | .jnull => false
  | .jnum n => n != 0
  | .jstr s => s != ""
  | .jobj _ => true

/-- Lines kept by `output.split('\n').map(isJsonString).filter(l => l !== false)`
(src/src/downloader.js lines 47-49).  `isJsonString` (lines 15-22) returns
the parsed value, or the boolean `false` when `JSON.parse` throws; the
parser itself is the oracle `parse`, with `none` for a parse failure.
Because JS `!==` cannot distinguish the `false` sentinel from a line whose
JSON value is the literal `false`, the filter removes both. -/
def jsonCandidates (parse : String → Option Json) (output : String) : List Json :=
  ((splitLines output).filterMap parse).filter (fun v => v != Json.jbool false)

/-- Failure message of src/src/downloader.js line 43. -/
def unavailableMsg : String :=
  "Could not find video. It may be unavailable or private."

/-- Failure message of src/unnamed/part_002 line 104. -/
def unavailableMsgLegacy : String :=
  "could not find video."

/-- Failure message of src/src/downloader.js line 52. -/
def parseFailMsg : String :=
  "Failed to parse video information"

/-- Failure message of src/src/downloader.js line 74. -/
def noFormatMsg : String :=
  "Failed to find suitable format"

/-- Probe-output handling of src/src/downloader.js lines 41-53: the
unavailable-marker test on the raw combined output comes first; then
`const [json] = ...` takes the head of the candidate list (leaving `json`
undefined when there is none), and `if (!json)` throws for an undefined
or falsy `json`. -/
def probeParse (parse : String → Option Json) (output : String) : Except String Json :=
  if includesSub output "Video unavailable" then .error unavailableMsg
  else
    match (jsonCandidates parse output).head? with
    | none => .error parseFailMsg
    | some j => if truthy j then .ok j else .error parseFailMsg

/-! ## Format selection (src/src/downloader.js lines 64-78) -/

/-- The filter `formats.filter(f => f?.resolution == 'audio only')`. -/
def audioOnlyFilter (formats : List FormatDesc) : List FormatDesc :=
  formats.filter (fun f => f.resolution == some "audio only")

/-- Format selection: optional audio-only filtering, the emptiness check
(`if (!formatIds || formatIds.length === 0)`), then
`options.formatId || formatIds[0]`.  Note that the emptiness check
precedes the use of the explicit id. -/
def selectStage (audioOnly : Bool) (explicitId : Option String)
    (formats : List FormatDesc) : Except String String :=
  let fs := if audioOnly then audioOnlyFilter formats else formats
  let formatIds := fs.map (fun a => a.format_id)
  if formatIds.length = 0 then .error noFormatMsg
  else .ok (jsOrString explicitId (formatIds.headD ""))

/-! ## Paths -/

/-- Node `path.join(a, b)` for POSIX paths, modelled from the Node
documentation for the fragment exercised by the code: segments are joined
with '/', normalization drops empty and '.' segments ('..' does not occur
in any path built by the code from a sanitized stem), a leading '/' of `a`
is kept, and an empty normalized result is '.'. -/
def pathJoin (a b : String) : String :=
  let segs := (splitLines ((String.mk (a.data.map fun c => if c = '/' then '\n' else c)) ++ "\n" ++
    String.mk (b.data.map fun c => if c = '/' then '\n' else c))).filter
    (fun s => s != "" && s != ".")
  let core := joinWith "/" segs
  let joined := if leadsWith ['/'] a.data then "/" ++ core else core
  if joined = "" then "." else joined

/-! ## Thumbnail fetcher (src/src/metadata.js lines 14-42) -/

/-- What the single HTTP GET of `downloadThumbnail` observes: a response
(status code and body chunks) or a connection/transport error. -/
inductive HttpEvent where
  | response (status : Nat) (chunks : List (List Nat))
  | netError (msg : String)
deriving DecidableEq, Repr

/-- downloadThumbnail: the promise executor only ever calls `resolve`
(status other than 200 resolves `null`, the `'error'` handler resolves
`null`, the surrounding try/catch resolves `null`), so the embedding is a
total function into `Option` with no rejection channel; on success the
body chunks are concatenated (`Buffer.concat`). -/
def downloadThumbnail : HttpEvent → Option (List Nat)
  | .response status chunks => if status ≠ 200 then none else some chunks.flatten
  | .netError _ => none

/-! ## Tag construction (src/src/downloader.js lines 105-119 and
src/src/metadata.js lines 56-75; textually identical in
src/unnamed/part_002) -/

/-- The intermediate `metadata` object built in `yt_dlp` before calling
`addMetadata`. -/
structure Metadata where
  title : Option String
  artist : Option String
  album : Option String
  uploadDate : Option String
  description : Option String
  webpage_url : Option String
  categories : Option (List String)
  thumbnailBuffer : Option (List Nat)
deriving DecidableEq, Repr

/-- Construction of the `metadata` object (src/src/downloader.js lines
105-119): field extraction with JS `||` fallbacks, and the thumbnail
buffer filled only when `json.thumbnail` is truthy, from the resolved
value of `downloadThumbnail` (possibly `null`). -/
def metadataOf (o : ProbeJson) (http : String → HttpEvent) : Metadata :=
  { title := o.title
    artist := jsOrOpt o.uploader o.channel
    album := some (jsOrString o.album "YouTube")
    uploadDate := o.upload_date
    description := o.description
    webpage_url := o.webpage_url
    categories := o.categories
    thumbnailBuffer :=
      match o.thumbnail with
      | some url => if url ≠ "" then downloadThumbnail (http url) else none
      | none => none }

/-- The tag set passed to `NodeID3.write` (src/src/metadata.js lines
56-75); `comment` is its composed text, `image` the cover buffer. -/
structure TagSet where
  title : String
  artist : String
  album : String
  year : String
  comment : String
  genre : String
  image : Option (List Nat)
deriving DecidableEq, Repr

/-- Tag construction in `addMetadata` (src/src/metadata.js lines 56-75):
`title || ''`, `artist || 'YouTube'`, `album || 'Downloaded with
bookmark-dlp'`, the upload-date ternary with `substring(0, 4)`, the
two-line comment with `|| ''` substitutions, categories joined with
`', '`, and the thumbnail buffer as cover image. -/
def buildTags (m : Metadata) : TagSet :=
  { title := jsOrString m.title ""
    artist := jsOrString m.artist "YouTube"
    album := jsOrString m.album "Downloaded with bookmark-dlp"
    year := match m.uploadDate with
      | some d => if d ≠ "" then String.mk (d.data.take 4) else ""
      | none => ""
    comment := "Source: " ++ jsOrString m.webpage_url "" ++
      "\nDescription: " ++ jsOrString m.description ""
    genre := match m.categories with
      | some cs => joinWith ", " cs
      | none => ""
    image := m.thumbnailBuffer }

/-! ## The single-item download task -/

/-- Per-run options, from the CLI collaborator (`options.addMetadata` may
be absent; the code tests `options.addMetadata !== false`). -/
structure Options where
  outputDir : Option String := none
  format : Option String := none
  audioOnly : Bool := false
  addMetadata : Option Bool := none
  formatId : Option String := none
deriving DecidableEq, Repr

/-- The external world seen by one task: the probe `execSync` result
(exception message or combined output), the download `exec` result keyed
by the format id and output path it is invoked with, the HTTP world for
thumbnail URLs, and the `NodeID3.write` result. -/
structure TaskEnv where
  probe : Except String String
  download : String → String → Except String Unit
  http : String → HttpEvent
  tagWrite : Bool

/-- The settled state of a task promise: resolved
`{title, path, status: 'success'}` or rejected with an error message. -/
inductive TaskResult where
  | success (title path : String)
  | failure (msg : String)
deriving DecidableEq, Repr

/-- The externally visible record of one task run: its settled result,
the sanitized stem once computed, the `(formatId, outputPath)` pair of the
download invocation if one was issued, and the tag set written if the
metadata phase ran. -/
structure TaskRun where
  result : TaskResult
  stem : Option String := none
  invoked : Option (String × String) := none
  tagsWritten : Option TagSet := none
deriving DecidableEq, Repr

/-- A run that rejected with message `msg` before any download attempt. -/
def failRun (msg : String) : TaskRun :=
  { result := .failure msg }

/-- The modular single-item task (src/src/downloader.js lines 34-140),
with the logging dropped: probe subprocess, unavailable marker, JSON line
selection and `!json` guard (`probeParse`), `json.title` access (throws
for a non-object or a missing title), sanitizer, format selection, output
path, download subprocess, then the best-effort metadata phase whose
outcome never changes the resolved value. -/
def yt_dlp (parse : String → Option Json) (env : TaskEnv) (opts : Options) : TaskRun :=
  match env.probe with
  | .error msg => failRun msg
  | .ok output =>
    match probeParse parse output with
    | .error msg => failRun msg
    | .ok json =>
      match json with
      | .jobj o =>
        match o.title with
        | none => failRun "TypeError: json.title is undefined"
        | some rawTitle =>
          let title := sanitize rawTitle
          match selectStage opts.audioOnly opts.formatId o.formats with
          | .error msg => { result := .failure msg, stem := some title }
          | .ok formatId =>
            let outputPath := pathJoin (jsOrString opts.outputDir ".")
              (title ++ "." ++ jsOrString opts.format "mp3")
            match env.download formatId outputPath with
            | .error msg =>
              { result := .failure msg, stem := some title,
                invoked := some (formatId, outputPath) }
            | .ok _ =>
              if opts.addMetadata ≠ some false then
                { result := .success title outputPath, stem := some title,
                  invoked := some (formatId, outputPath),
                  tagsWritten := some (buildTags (metadataOf o env.http)) }
              else
                { result := .success title outputPath, stem := some title,
                  invoked := some (formatId, outputPath) }
      | _ => failRun "TypeError: cannot read title"

/-- The legacy single-item task (src/unnamed/part_002 lines 96-183).  It
differs from the modular one in its unavailable message and in lacking
the `if (!json)` guard: an undefined or falsy `json` instead throws a
TypeError at `json.title` / `.replace`.  Its sanitizer, format selection,
output path, download command and metadata phase are textually identical
to the modular ones (minus logging), so those embeddings are shared. -/
def yt_dlp_legacy (parse : String → Option Json) (env : TaskEnv) (opts : Options) : TaskRun :=
  match env.probe with
  | .error msg => failRun msg
  | .ok output =>
    if includesSub output "Video unavailable" then failRun unavailableMsgLegacy
    else
      match (jsonCandidates parse output).head? with
      | none => failRun "TypeError: cannot read title of undefined"
      | some json =>
        match json with
        | .jobj o =>
          match o.title with
          | none => failRun "TypeError: json.title is undefined"
          | some rawTitle =>
            let title := sanitize rawTitle
            match selectStage opts.audioOnly opts.formatId o.formats with
            | .error msg => { result := .failure msg, stem := some title }
            | .ok formatId =>
              let outputPath := pathJoin (jsOrString opts.outputDir ".")
                (title ++ "." ++ jsOrString opts.format "mp3")
              match env.download formatId outputPath with
              | .error msg =>
                { result := .failure msg, stem := some title,
                  invoked := some (formatId, outputPath) }
              | .ok _ =>
                if opts.addMetadata ≠ some false then
                  { result := .success title outputPath, stem := some title,
                    invoked := some (formatId, outputPath),
                    tagsWritten := some (buildTags (metadataOf o env.http)) }
                else
                  { result := .success title outputPath, stem := some title,
                    invoked := some (formatId, outputPath) }
        | _ => failRun "TypeError: cannot read title"

/-- Erase the rejection message of a run, keeping every other observable
(success payload, stem, download invocation, tag set).  Claim C10
compares the two task variants up to this erasure, since their rejection
texts differ. -/
def stripMsg (r : TaskRun) : TaskRun :=
  { r with result := match r.result with
    | .failure _ => .failure ""
    | s => s }

/-! ## Batch scheduler (src/index.js lines 420-453)

`for (let i = 0; i < links.length; i += concurrentLimit) {
   const batch = links.slice(i, i + concurrentLimit);
   const downloadPromises = batch.map(link => yt_dlp(link, {...}));
   const results = await Promise.allSettled(downloadPromises); ... }`

The loop index and the concurrency limit are JS numbers that may be zero
or negative (`parseInt(options.concurrent)` is not validated), so the
loop is modelled over `Int` with JS `Array.prototype.slice` semantics. -/

/-- JS `Array.prototype.slice` index resolution: a negative index counts
from the end, then the result is clamped to the range 0..len. -/
def jsSliceIndex (len : Nat) (x : Int) : Nat :=
  if x < 0 then ((len : Int) + x).toNat else min x.toNat len

/-- JS `l.slice(start, stop)`: the elements from the resolved start index
up to the resolved stop index (exclusive); empty when start is not below
stop. -/
def jsSlice (l : List α) (start stop : Int) : List α :=
  (l.take (jsSliceIndex l.length stop)).drop (jsSliceIndex l.length start)

/-- State of the batch loop: the loop index `i` and the batches launched
so far.  Each recorded batch corresponds to one
`batch.map(link => yt_dlp(link, ...))` launch followed by
`await Promise.allSettled(downloadPromises)`. -/
structure LoopState where
  i : Int
  launched : List (List String)
deriving DecidableEq, Repr

/-- One iteration of the batch loop of src/index.js lines 426-453; `none`
when the guard `i < links.length` fails and the loop exits.  The loop body
contains no validation of the concurrency limit and no error throw. -/
def loopStep (links : List String) (concurrentLimit : Int) (s : LoopState) : Option LoopState :=
  if s.i < (links.length : Int) then
    some { i := s.i + concurrentLimit,
           launched := s.launched ++ [jsSlice links s.i (s.i + concurrentLimit)] }
  else none

/-- The loop state after `n` iteration attempts from the initial state
(`i = 0`, nothing launched); once the guard fails the state is final. -/
def loopRun (links : List String) (concurrentLimit : Int) : Nat → LoopState
  | 0 => { i := 0, launched := [] }
  | n + 1 =>
    match loopStep links concurrentLimit (loopRun links concurrentLimit n) with
    | some s2 => s2
    | none => loopRun links concurrentLimit n

/-- The loop guard has failed within the first `n` iterations, i.e. the
loop has terminated. -/
def loopDone (links : List String) (concurrentLimit : Int) (n : Nat) : Prop :=
  (links.length : Int) ≤ (loopRun links concurrentLimit n).i

instance (links : List String) (k : Int) (n : Nat) : Decidable (loopDone links k n) :=
  inferInstanceAs (Decidable (_ ≤ _))

/-- Worker for `batches`, structurally recursive on a fuel bound on the
list length. -/
def batchesAux (k : Nat) : Nat → List α → List (List α)
  | 0, _ => []
  | _, [] => []
  | fuel + 1, l => l.take k :: batchesAux k fuel (l.drop k)

/-- The window decomposition computed by the batch loop for a positive
concurrency limit `k`: consecutive `links.slice(i, i + k)` chunks, i.e.
`take k` of successive `drop k` remainders.  The fuel `links.length`
suffices because each window consumes at least one element when `k ≥ 1`.
(The bridge to the literal loop is `loopRun_launched_eq_batches`; the
regime `k ≤ 0`, where the loop never terminates, is analyzed directly on
`loopRun`.) -/
def batches (links : List α) (k : Nat) : List (List α) :=
  batchesAux k links.length links

/-! ## Window traces

The scheduler's concurrency behaviour is modelled by event traces.  Tasks
of one window are launched by `batch.map` (a `start` event per task, in
window order) and each settles exactly once (`settle` event carrying its
result); `await Promise.allSettled` ends the window, so a full run trace
is the concatenation of per-window segments.  Within a segment settles
may interleave arbitrarily after their own start: this is a superset of
the orders the Node event loop can produce, so properties proved for all
valid segments cover every real execution. -/

/-- An observable scheduling event: task `j` (a global index into the
link list) starts, or settles with result `r`. -/
inductive Event where
  | start (j : Nat)
  | settle (j : Nat) (r : TaskResult)
deriving DecidableEq, Repr

/-- The task indices started in a trace, in order. -/
def startsOf (es : List Event) : List Nat :=
  es.filterMap fun e => match e with | .start j => some j | _ => none

/-- The settle events of a trace as (task index, result) pairs, in order. -/
def settlesOf (es : List Event) : List (Nat × TaskResult) :=
  es.filterMap fun e => match e with | .settle j r => some (j, r) | _ => none

/-- Check that every settle event is preceded by the start of the same
task; `started` accumulates the tasks started so far. -/
def checkSeg : List Event → List Nat → Bool
  | [], _ => true
  | .start j :: rest, started => checkSeg rest (j :: started)
  | .settle j _ :: rest, started => started.contains j && checkSeg rest started

/-- seg is a possible event segment for one window with task indices
`idxs` and per-task settled results `f`: the tasks started are exactly
`idxs` in window order (the order of `batch.map`), every task settles
exactly once with its own result, in an arbitrary interleaving in which
no task settles before it starts, and no other task's event occurs inside
the window segment (the window barrier). -/
def ValidSeg (f : Nat → TaskResult) (idxs : List Nat) (seg : List Event) : Prop :=
  startsOf seg = idxs ∧
  (settlesOf seg).Perm (idxs.map fun j => (j, f j)) ∧
  checkSeg seg [] = true

instance (f : Nat → TaskResult) (idxs : List Nat) (seg : List Event) :
    Decidable (ValidSeg f idxs seg) :=
  inferInstanceAs (Decidable (_ ∧ _ ∧ _))

/-- The index windows of a run over `n` links with window size `k`. -/
def windowIdx (n k : Nat) : List (List Nat) :=
  batches (List.range n) k

/-- segs is a possible family of per-window event segments for a run over
`n` links with window size `k` and per-task results `f`; the full run
trace is `segs.flatten`. -/
def ValidWindows (f : Nat → TaskResult) (n k : Nat) (segs : List (List Event)) : Prop :=
  List.Forall₂ (ValidSeg f) (windowIdx n k) segs

/-- The number of tasks started and not yet settled after the events of a
trace prefix (in a valid trace each task starts and settles at most once,
so this count is starts minus settles). -/
def active (es : List Event) : Int :=
  ((startsOf es).length : Int) - ((settlesOf es).length : Int)

/-- The value of `await Promise.allSettled(downloadPromises)` for one
window: the settled result of each of the window's tasks, in input
(window) order, read off the window's settle events. -/
def allSettledOf (seg : List Event) (idxs : List Nat) : List (Option TaskResult) :=
  idxs.map fun j => (settlesOf seg).lookup j

/-- The concatenation of the per-window `allSettled` results of a run. -/
def batchResults (ws : List (List Nat)) (segs : List (List Event)) : List (Option TaskResult) :=
  (List.zipWith allSettledOf segs ws).flatten

/-- The settled result of every task of a run, window by window: the loop
body launches `batch.map(link => yt_dlp(link, options))` for each window
of `batches links k` and collects the settled results.  The outside world
is a family of task environments keyed by the link. -/
def runResults (parse : String → Option Json) (envs : String → TaskEnv)
    (opts : Options) (links : List String) (k : Nat) : List TaskResult :=
  ((batches links k).map (fun batch => batch.map
    (fun link => (yt_dlp parse (envs link) opts).result))).flatten

/-- The settled result of the task as a function of the probe and
download oracles only: the value of `yt_dlp`'s `result` field never
depends on the HTTP world or the tag-write result (the metadata phase of
src/src/downloader.js lines 100-126 runs inside a try/catch after the
download callback has already committed to resolving successfully). -/
def taskResultOf (parse : String → Option Json) (probe : Except String String)
    (download : String → String → Except String Unit) (opts : Options) : TaskResult :=
  match probe with
  | .error msg => .failure msg
  | .ok output =>
    match probeParse parse output with
    | .error msg => .failure msg
    | .ok json =>
      match json with
      | .jobj o =>
        match o.title with
        | none => .failure "TypeError: json.title is undefined"
        | some rawTitle =>
          let title := sanitize rawTitle
          match selectStage opts.audioOnly opts.formatId o.formats with
          | .error msg => .failure msg
          | .ok formatId =>
            let outputPath := pathJoin (jsOrString opts.outputDir ".")
              (title ++ "." ++ jsOrString opts.format "mp3")
            match download formatId outputPath with
            | .error msg => .failure msg
            | .ok _ => .success title outputPath
      | _ => .failure "TypeError: cannot read title"

/-! ## Concrete fixtures used by counterexamples and witnesses -/

/-- Parse oracle for the C6 counterexample: the line `null` parses to the
JSON literal null, the line `objline` to a well-formed probe object. -/
def parseC6 (s : String) : Option Json :=
  if s = "null" then some Json.jnull
  else if s = "objline" then some (Json.jobj { title := some "Some Title" })
  else none

/-- Parse oracle for the C8 counterexample: one line parsing to a probe
object whose title sanitizes to the empty string. -/
def parseC8 (s : String) : Option Json :=
  if s = "titleline" then
    some (Json.jobj { title := some "!!!",
                      formats := [{ format_id := "140", resolution := some "audio only" }] })
  else none

/-- A task environment whose probe returns one parseable line, whose
download succeeds, and whose network is down. -/
def envC8 : TaskEnv :=
  { probe := .ok "titleline"
    download := fun _ _ => .ok ()
    http := fun _ => .netError "offline"
    tagWrite := false }

/-- Options of the C8 counterexample: audio-only download into `out`. -/
def optsC8 : Options :=
  { outputDir := some "out", audioOnly := true }

/-- A parse oracle that parses no line. -/
def parseNone : String → Option Json :=
  fun _ => none

/-- A task environment whose probe subprocess throws. -/
def envFail : TaskEnv :=
  { probe := .error "boom"
    download := fun _ _ => .error "x"
    http := fun _ => .netError "x"
    tagWrite := false }

/-- A task environment whose probe output contains the unavailable
marker. -/
def envUnavailable : TaskEnv :=
  { probe := .ok "ERROR: Video unavailable"
    download := fun _ _ => .error "x"
    http := fun _ => .netError "x"
    tagWrite := false }

/-- An environment family for the C3 witness: the link `x` hits an
unavailable video, every other link's probe subprocess throws. -/
def envsC3 : String → TaskEnv :=
  fun link => if link = "x" then envUnavailable else envFail

end BookmarkDlp

namespace BookmarkDlp

theorem batchesAux_nil (k fuel : Nat) : batchesAux k fuel ([] : List α) = [] := by
  cases fuel <;> rfl

theorem batchesAux_zero (k : Nat) (l : List α) : batchesAux k 0 l = [] := by
  cases l <;> rfl

theorem batchesAux_flatten (k : Nat) (hk : 1 ≤ k) :
    ∀ (fuel : Nat) (l : List α), l.length ≤ fuel → (batchesAux k fuel l).flatten = l := by
  intro fuel
  induction fuel with
  | zero =>
    intro l hl
    have : l = [] := List.length_eq_zero.mp (Nat.le_zero.mp hl)
    subst this; rfl
  | succ n ih =>
    intro l hl
    match l with
    | [] => rfl
    | x :: xs =>
      have hstep : batchesAux k (n + 1) (x :: xs) =
          (x :: xs).take k :: batchesAux k n ((x :: xs).drop k) := rfl
      rw [hstep, List.flatten_cons, ih]
      · exact List.take_append_drop k (x :: xs)
      · have h1 : ((x :: xs).drop k).length = (x :: xs).length - k := List.length_drop k _
        have h2 : (x :: xs).length = xs.length + 1 := rfl
        omega

theorem batchesAux_shape (k : Nat) (hk : 1 ≤ k) :
    ∀ (fuel : Nat) (l : List α), l.length ≤ fuel →
      ∀ w ∈ batchesAux k fuel l, w ≠ [] ∧ w.length ≤ k := by
  intro fuel
  induction fuel with
  | zero =>
    intro l hl
    have : l = [] := List.length_eq_zero.mp (Nat.le_zero.mp hl)
    subst this; intro w hw; simp [batchesAux] at hw
  | succ n ih =>
    intro l hl
    match l with
    | [] => intro w hw; simp [batchesAux_nil] at hw
    | x :: xs =>
      intro w hw
      have hstep : batchesAux k (n + 1) (x :: xs) =
          (x :: xs).take k :: batchesAux k n ((x :: xs).drop k) := rfl
      rw [hstep] at hw
      rcases List.mem_cons.mp hw with h | h
      · subst h
        constructor
        · have : ((x :: xs).take k).length = min k (x :: xs).length := List.length_take k _
          intro hnil
          rw [hnil] at this
          simp at this
          omega
        · have : ((x :: xs).take k).length = min k (x :: xs).length := List.length_take k _
          omega
      · refine ih _ ?_ w h
        have h1 : ((x :: xs).drop k).length = (x :: xs).length - k := List.length_drop k _
        have h2 : (x :: xs).length = xs.length + 1 := rfl
        omega

theorem batchesAux_dropLast (k : Nat) (hk : 1 ≤ k) :
    ∀ (fuel : Nat) (l : List α), l.length ≤ fuel →
      ∀ w ∈ (batchesAux k fuel l).dropLast, w.length = k := by
  intro fuel
  induction fuel with
  | zero =>
    intro l hl
    have : l = [] := List.length_eq_zero.mp (Nat.le_zero.mp hl)
    subst this; intro w hw; simp [batchesAux] at hw
  | succ n ih =>
    intro l hl
    match l with
    | [] => intro w hw; simp [batchesAux_nil] at hw
    | x :: xs =>
      intro w hw
      have hstep : batchesAux k (n + 1) (x :: xs) =
          (x :: xs).take k :: batchesAux k n ((x :: xs).drop k) := rfl
      rw [hstep] at hw
      cases hrest : batchesAux k n ((x :: xs).drop k) with
      | nil => rw [hrest] at hw; simp at hw
      | cons b bs =>
        rw [hrest] at hw
        rw [List.dropLast_cons_of_ne_nil (by simp)] at hw
        rcases List.mem_cons.mp hw with h | h
        · subst h
          have hne : (x :: xs).drop k ≠ [] := by
            intro hnil
            rw [hnil, batchesAux_nil] at hrest
            exact List.noConfusion hrest
          have h1 : ((x :: xs).drop k).length = (x :: xs).length - k := List.length_drop k _
          have h2 : ((x :: xs).take k).length = min k (x :: xs).length := List.length_take k _
          have h3 : (x :: xs).drop k ≠ [] → ((x :: xs).drop k).length ≠ 0 := by
            intro hne2 h0
            exact hne2 (List.length_eq_zero.mp h0)
          have := h3 hne
          omega
        · rw [← hrest] at h
          refine ih _ ?_ w h
          have h1 : ((x :: xs).drop k).length = (x :: xs).length - k := List.length_drop k _
          have h2 : (x :: xs).length = xs.length + 1 := rfl
          omega

theorem batches_flatten (links : List α) (k : Nat) (hk : 1 ≤ k) :
    (batches links k).flatten = links :=
  batchesAux_flatten k hk links.length links (Nat.le_refl _)

end BookmarkDlp

namespace BookmarkDlp

theorem startsOf_append (p q : List Event) :
    startsOf (p ++ q) = startsOf p ++ startsOf q := by
  simp [startsOf, List.filterMap_append]

theorem settlesOf_append (p q : List Event) :
    settlesOf (p ++ q) = settlesOf p ++ settlesOf q := by
  simp [settlesOf, List.filterMap_append]

theorem mem_startsOf (j : Nat) (s : List Event) :
    j ∈ startsOf s ↔ Event.start j ∈ s := by
  simp only [startsOf, List.mem_filterMap]
  constructor
  · rintro ⟨e, he, hme⟩
    cases e with
    | start i =>
      simp only [Option.some.injEq] at hme
      subst hme; exact he
    | settle i r => simp at hme
  · intro h
    exact ⟨Event.start j, h, rfl⟩

theorem mem_settlesOf (j : Nat) (r : TaskResult) (s : List Event) :
    (j, r) ∈ settlesOf s ↔ Event.settle j r ∈ s := by
  simp only [settlesOf, List.mem_filterMap]
  constructor
  · rintro ⟨e, he, hme⟩
    cases e with
    | start i => simp at hme
    | settle i r2 =>
      simp only [Option.some.injEq, Prod.mk.injEq] at hme
      obtain ⟨h1, h2⟩ := hme
      subst h1; subst h2; exact he
  · intro h
    exact ⟨Event.settle j r, h, rfl⟩

theorem active_append (p q : List Event) :
    active (p ++ q) = active p + active q := by
  simp only [active, startsOf_append, settlesOf_append, List.length_append]
  push_cast
  ring

theorem ValidSeg.active_zero {f : Nat → TaskResult} {idxs : List Nat} {seg : List Event}
    (h : ValidSeg f idxs seg) : active seg = 0 := by
  obtain ⟨h1, h2, _⟩ := h
  have hlen : (settlesOf seg).length = idxs.length := by
    rw [h2.length_eq, List.length_map]
  simp [active, h1, hlen]

theorem ValidSeg.active_le {f : Nat → TaskResult} {idxs : List Nat} {seg : List Event}
    (h : ValidSeg f idxs seg) (p q : List Event) (hpq : seg = p ++ q) :
    active p ≤ (idxs.length : Int) := by
  obtain ⟨h1, _, _⟩ := h
  have hlen : (startsOf p).length ≤ idxs.length := by
    rw [← h1, hpq, startsOf_append, List.length_append]
    omega
  simp only [active]
  omega

theorem ValidSeg.settle_mem {f : Nat → TaskResult} {idxs : List Nat} {seg : List Event}
    (h : ValidSeg f idxs seg) {j : Nat} (hj : j ∈ idxs) :
    Event.settle j (f j) ∈ seg := by
  obtain ⟨_, h2, _⟩ := h
  have hmem : (j, f j) ∈ idxs.map (fun i => (i, f i)) := List.mem_map_of_mem _ hj
  exact (mem_settlesOf j (f j) seg).mp (h2.symm.subset hmem)

theorem active_bound {f : Nat → TaskResult} {ws : List (List Nat)} {segs : List (List Event)}
    (h : List.Forall₂ (ValidSeg f) ws segs) (k : Nat) (hw : ∀ w ∈ ws, w.length ≤ k) :
    ∀ p q, segs.flatten = p ++ q → active p ≤ (k : Int) := by
  induction h with
  | nil =>
    intro p q hpq
    have hp : p = [] := (List.append_eq_nil.mp hpq.symm).1
    subst hp
    simp [active, startsOf, settlesOf]
  | cons hseg hrest ih =>
    rename_i w s ws' segs'
    intro p q hpq
    rw [List.flatten_cons] at hpq
    rcases List.append_eq_append_iff.mp hpq with ⟨a', hp, hfl⟩ | ⟨c', hs, hq⟩
    · subst hp
      rw [active_append, hseg.active_zero]
      simp only [zero_add]
      exact ih (fun w2 hw2 => hw w2 (List.mem_cons_of_mem _ hw2)) a' q hfl
    · have hb := hseg.active_le p c' hs
      have hk2 : (w.length : Int) ≤ (k : Int) := by
        exact_mod_cast hw w (List.mem_cons_self _ _)
      omega


theorem barrier_lemma {f : Nat → TaskResult} {ws : List (List Nat)} {segs : List (List Event)}
    (h : List.Forall₂ (ValidSeg f) ws segs) (hdisj : ws.Pairwise List.Disjoint) :
    ∀ (iw iw2 : Nat), iw2 < iw →
    ∀ j, j ∈ ws.getD iw [] →
    ∀ j2, j2 ∈ ws.getD iw2 [] →
    ∀ p q, segs.flatten = p ++ Event.start j :: q →
    Event.settle j2 (f j2) ∈ p := by
  induction h with
  | nil =>
    intro iw iw2 hlt j hj j2 hj2 p q hpq
    simp at hj
  | cons hseg hrest ih =>
    rename_i w s ws2 segs2
    intro iw iw2 hlt j hj j2 hj2 p q hpq
    have hdisj2 : ws2.Pairwise List.Disjoint := (List.pairwise_cons.mp hdisj).2
    have hdisjw : ∀ b ∈ ws2, List.Disjoint w b := (List.pairwise_cons.mp hdisj).1
    obtain ⟨iw1, rfl⟩ : ∃ m, iw = m + 1 := by
      cases iw with
      | zero => omega
      | succ m => exact ⟨m, rfl⟩
    have hj1 : j ∈ ws2.getD iw1 [] := by
      simpa using hj
    have hjws2 : j ∈ ws2.getD iw1 [] → iw1 < ws2.length → j ∈ ws2.flatten := by
      intro hm hlen
      have : ws2.getD iw1 [] ∈ ws2 := by
        rw [List.getD_eq_getElem _ _ hlen]
        exact List.getElem_mem hlen
      exact List.mem_flatten.mpr ⟨_, this, hm⟩
    have hstart_not_w : Event.start j ∈ s → False := by
      intro hmem
      have hjw : j ∈ w := by
        have := (mem_startsOf j s).mpr hmem
        rwa [hseg.1] at this
      by_cases hlen : iw1 < ws2.length
      · have hwin : ws2.getD iw1 [] ∈ ws2 := by
          rw [List.getD_eq_getElem _ _ hlen]
          exact List.getElem_mem hlen
        exact hdisjw _ hwin hjw hj1
      · rw [List.getD_eq_default _ _ (Nat.le_of_not_lt hlen)] at hj1
        simp at hj1
    rw [List.flatten_cons] at hpq
    rcases List.append_eq_append_iff.mp hpq with ⟨a2, hp, hfl⟩ | ⟨c2, hs, hq⟩
    · -- p = s ++ a2, and the start of j lies in the tail segments
      subst hp
      cases iw2 with
      | zero =>
        have : Event.settle j2 (f j2) ∈ s := hseg.settle_mem (by simpa using hj2)
        exact List.mem_append_left a2 this
      | succ m =>
        have hj2t : j2 ∈ ws2.getD m [] := by simpa using hj2
        have := ih hdisj2 iw1 m (by omega) j hj1 j2 hj2t a2 q hfl
        exact List.mem_append_right s this
    · -- s = p ++ c2 : the start of j would lie inside the first window
      cases c2 with
      | nil =>
        -- then p = s and the tail flattening begins with the start of j
        simp only [List.append_nil] at hs
        subst hs
        cases iw2 with
        | zero =>
          exact hseg.settle_mem (by simpa using hj2)
        | succ m =>
          have hj2t : j2 ∈ ws2.getD m [] := by simpa using hj2
          have hfl2 : segs2.flatten = [] ++ Event.start j :: q := by
            simpa using hq.symm
          have := ih hdisj2 iw1 m (by omega) j hj1 j2 hj2t [] q hfl2
          simp at this
      | cons e c3 =>
        exfalso
        have he : e = Event.start j := by
          have := hq
          simp only [List.cons_append] at this
          exact (List.cons_eq_cons.mp this).1.symm
        subst he
        exact hstart_not_w (by
          rw [hs]
          exact List.mem_append_right p (List.mem_cons_self _ _))


theorem lookup_eq_of_mem {l : List (Nat × TaskResult)} (hnd : (l.map Prod.fst).Nodup)
    {j : Nat} {r : TaskResult} (hmem : (j, r) ∈ l) : l.lookup j = some r := by
  induction l with
  | nil => simp at hmem
  | cons a tl ih =>
    obtain ⟨a1, a2⟩ := a
    simp only [List.map_cons, List.nodup_cons] at hnd
    rcases List.mem_cons.mp hmem with h | h
    · obtain ⟨h1, h2⟩ := Prod.mk.injEq .. |>.mp h
      subst h1; subst h2
      simp [List.lookup]
    · have hne : j ≠ a1 := by
        intro he
        subst he
        exact hnd.1 (List.mem_map_of_mem Prod.fst h)
      have hbeq : (j == a1) = false := beq_eq_false_iff_ne.mpr hne
      simp only [List.lookup, hbeq]
      exact ih hnd.2 h

theorem map_fst_pair (f : Nat → TaskResult) (idxs : List Nat) :
    (idxs.map fun j => (j, f j)).map Prod.fst = idxs := by
  induction idxs with
  | nil => rfl
  | cons a tl ih => simp only [List.map_cons, ih]

theorem allSettledOf_eq {f : Nat → TaskResult} {idxs : List Nat} {seg : List Event}
    (h : ValidSeg f idxs seg) (hnd : idxs.Nodup) :
    allSettledOf seg idxs = idxs.map (fun j => some (f j)) := by
  unfold allSettledOf
  refine List.map_congr_left ?_
  intro j hj
  have hkeys : ((settlesOf seg).map Prod.fst).Nodup := by
    have h3 : (idxs.map fun j => (j, f j)).map Prod.fst = idxs := map_fst_pair f idxs
    have hperm : ((settlesOf seg).map Prod.fst).Perm idxs := by
      have h2 := h.2.1.map Prod.fst
      rwa [h3] at h2
    exact hperm.nodup_iff.mpr hnd
  have hmem : (j, f j) ∈ settlesOf seg :=
    h.2.1.symm.subset (List.mem_map_of_mem _ hj)
  exact lookup_eq_of_mem hkeys hmem

theorem batchResults_eq {f : Nat → TaskResult} {ws : List (List Nat)} {segs : List (List Event)}
    (h : List.Forall₂ (ValidSeg f) ws segs) (hnd : ∀ w ∈ ws, w.Nodup) :
    batchResults ws segs = ws.flatten.map (fun j => some (f j)) := by
  induction h with
  | nil => rfl
  | cons hseg hrest ih =>
    rename_i w s ws2 segs2
    simp only [batchResults, List.zipWith_cons_cons, List.flatten_cons, List.map_append]
    rw [allSettledOf_eq hseg (hnd w (List.mem_cons_self _ _))]
    congr 1
    exact ih (fun w2 hw2 => hnd w2 (List.mem_cons_of_mem _ hw2))


theorem head?_filter_eq_find? (p : α → Bool) (l : List α) :
    (l.filter p).head? = l.find? p := by
  induction l with
  | nil => rfl
  | cons a tl ih =>
    by_cases h : p a
    · simp [List.filter_cons, h]
    · simp [List.filter_cons, h, ih]

/-- C9 counterexample: the sanitizer applied to the spec's example input
does not return the value the spec claims. -/
theorem C9_counterexample : sanitize "My Video: Part 1/2" ≠ "my_video_part_12" := by
  decide

/-- C9 amended: the sanitizer maps the example input to
`my_video__part_1_2` (the colon, slash and each space become underscores;
nothing is removed and nothing is collapsed across the already-replaced
characters). -/
theorem C9_sanitize_value : sanitize "My Video: Part 1/2" = "my_video__part_1_2" := by
  decide

/-- C7 counterexample: with an explicit format id supplied and an empty
filtered candidate list, selection fails instead of returning the
explicit id unchanged (the emptiness check precedes the explicit-id
branch). -/
theorem C7_counterexample :
    selectStage true (some "007") [{ format_id := "22", resolution := some "720p" }] =
      .error noFormatMsg ∧
    selectStage true (some "007") [{ format_id := "22", resolution := some "720p" }] ≠
      .ok "007" := by
  decide

/-- C7 amended: selection fails with the no-matching-format error exactly
when the (filtered) candidate list is empty — even when an explicit id is
supplied; a non-empty explicit id is otherwise returned unchanged without
membership validation; and without an explicit id (absent or empty
string), with audio-only requested, the first format in probe order whose
resolution label is `audio only` is selected. -/
theorem C7_format_selection (audioOnly : Bool) (explicitId : Option String)
    (formats : List FormatDesc) :
    ((if audioOnly then audioOnlyFilter formats else formats) = [] ↔
      selectStage audioOnly explicitId formats = .error noFormatMsg) ∧
    (∀ e, explicitId = some e → e ≠ "" →
      (if audioOnly then audioOnlyFilter formats else formats) ≠ [] →
      selectStage audioOnly explicitId formats = .ok e) ∧
    ((explicitId = none ∨ explicitId = some "") → audioOnly = true →
      ∀ fdesc, formats.find? (fun g => g.resolution == some "audio only") = some fdesc →
      selectStage audioOnly explicitId formats = .ok fdesc.format_id) := by
  refine ⟨?_, ?_, ?_⟩
  · unfold selectStage
    constructor
    · intro h
      simp [h]
    · intro h
      by_cases hnil : (if audioOnly then audioOnlyFilter formats else formats) = []
      · exact hnil
      · exfalso
        have hlen : ((if audioOnly then audioOnlyFilter formats else formats).map
            (fun a => a.format_id)).length ≠ 0 := by
          simp only [List.length_map]
          intro h0
          exact hnil (List.length_eq_zero.mp h0)
        rw [if_neg hlen] at h
        exact Except.noConfusion h
  · intro e he hne hnonnil
    unfold selectStage
    have hlen : ((if audioOnly then audioOnlyFilter formats else formats).map
        (fun a => a.format_id)).length ≠ 0 := by
      simp only [List.length_map]
      intro h0
      exact hnonnil (List.length_eq_zero.mp h0)
    rw [if_neg hlen]
    subst he
    simp [jsOrString, hne]
  · intro hid haud fdesc hfind
    subst haud
    unfold selectStage
    have hhead : (audioOnlyFilter formats).head? = some fdesc := by
      rw [audioOnlyFilter, head?_filter_eq_find?]
      exact hfind
    have hnonnil : audioOnlyFilter formats ≠ [] := by
      intro h0
      rw [h0] at hhead
      exact Option.noConfusion hhead
    have hlen : ((audioOnlyFilter formats).map (fun a => a.format_id)).length ≠ 0 := by
      simp only [List.length_map]
      intro h0
      exact hnonnil (List.length_eq_zero.mp h0)
    simp only [if_true]
    rw [if_neg hlen]
    have hheadD : ((audioOnlyFilter formats).map (fun a => a.format_id)).headD "" =
        fdesc.format_id := by
      cases hfl : audioOnlyFilter formats with
      | nil => exact absurd hfl hnonnil
      | cons b bs =>
        rw [hfl] at hhead
        simp only [List.head?_cons, Option.some.injEq] at hhead
        subst hhead
        rfl
    rw [hheadD]
    rcases hid with h | h <;> subst h <;> simp [jsOrString]

/-- C6 counterexample: the first output line parses successfully (to the
JSON literal null), yet the probe stage fails with the unparseable error,
because the `if (!json)` truthiness guard rejects a falsy parsed value. -/
theorem C6_counterexample :
    parseC6 "null" = some Json.jnull ∧
    splitLines "null\nobjline" = ["null", "objline"] ∧
    probeParse parseC6 "null\nobjline" = .error parseFailMsg := by
  decide

/-- C6 amended: when the unavailable marker is absent, the probe yields
`j` exactly when the first line parsing to a JSON value other than the
literal `false` yields `j` and `j` is truthy; it fails with the
unparseable error exactly when there is no such line or when that first
value is falsy (`null`, `0`, or the empty string). -/
theorem C6_first_truthy_json (parse : String → Option Json) (output : String)
    (hm : includesSub output "Video unavailable" = false) :
    (∀ j, probeParse parse output = .ok j ↔
      ((splitLines output).filterMap parse).find? (fun v => v != Json.jbool false) = some j ∧
      truthy j = true) ∧
    (probeParse parse output = .error parseFailMsg ↔
      (((splitLines output).filterMap parse).find? (fun v => v != Json.jbool false) = none ∨
        ∃ j, ((splitLines output).filterMap parse).find?
          (fun v => v != Json.jbool false) = some j ∧ truthy j = false)) := by
  have hfind : (jsonCandidates parse output).head? =
      ((splitLines output).filterMap parse).find? (fun v => v != Json.jbool false) :=
    head?_filter_eq_find? _ _
  unfold probeParse
  rw [hm]
  simp only [Bool.false_eq_true, if_false]
  rw [← hfind]
  cases hc : (jsonCandidates parse output).head? with
  | none =>
    constructor
    · intro j
      simp
    · simp
  | some j2 =>
    by_cases ht : truthy j2 = true
    · simp only [ht, if_true]
      constructor
      · intro j
        constructor
        · intro h
          have h2 : j2 = j := Except.ok.inj h
          subst h2
          exact ⟨rfl, ht⟩
        · rintro ⟨h1, _⟩
          have h2 : j2 = j := Option.some.inj h1
          subst h2
          rfl
      · constructor
        · intro h
          exact absurd h (by simp)
        · rintro (h | ⟨j, h1, h2⟩)
          · exact Option.noConfusion h
          · have h3 : j2 = j := Option.some.inj h1
            subst h3
            rw [ht] at h2
            exact Bool.noConfusion h2
    · simp only [if_neg ht]
      constructor
      · intro j
        constructor
        · intro h
          exact absurd h (by simp)
        · rintro ⟨h1, h2⟩
          have h3 : j2 = j := Option.some.inj h1
          subst h3
          exact absurd h2 ht
      · constructor
        · intro _
          exact Or.inr ⟨j2, rfl, by simpa using ht⟩
        · intro _
          trivial

/-- C8 counterexample: a probe title consisting only of punctuation
sanitizes to the empty string, yet the task does not fail at format
selection — the download is invoked with the empty stem (output path
`out/.mp3`) and the task resolves successfully. -/
theorem C8_counterexample :
    sanitize "!!!" = "" ∧
    (yt_dlp parseC8 envC8 optsC8).invoked = some ("140", "out/.mp3") ∧
    (yt_dlp parseC8 envC8 optsC8).result = .success "" "out/.mp3" := by
  decide

/-- C8 amended: a probe result whose title sanitizes to the empty string
does not make the task fail at format selection; the sanitized stem is
the empty string and, whenever format selection succeeds, the download is
invoked with output path `outputDir/.extension` (empty stem). -/
theorem C8_empty_stem_proceeds (parse : String → Option Json) (env : TaskEnv)
    (opts : Options) (output : String) (o : ProbeJson) (rawTitle : String)
    (hp : env.probe = .ok output)
    (hj : probeParse parse output = .ok (.jobj o))
    (ht : o.title = some rawTitle)
    (hs : sanitize rawTitle = "") :
    (yt_dlp parse env opts).stem = some "" ∧
    ∀ fid, selectStage opts.audioOnly opts.formatId o.formats = .ok fid →
      (yt_dlp parse env opts).invoked =
        some (fid, pathJoin (jsOrString opts.outputDir ".")
          ("" ++ "." ++ jsOrString opts.format "mp3")) := by
  unfold yt_dlp
  simp only [hp, hj, ht, hs]
  refine ⟨?_, ?_⟩
  · split
    · rfl
    · split
      · rfl
      · split
        · rfl
        · rfl
  · intro fid hsel
    rw [hsel]
    split
    · rename_i msg heq
      exact Except.noConfusion heq
    · rename_i formatId heq
      have hfe : fid = formatId := Except.ok.inj heq
      subst hfe
      split
      · rfl
      · split
        · rfl
        · rfl

/-- C4 counterexample: with the concurrency limit -1 (which is ≤ 0) and a
two-link list, the first loop iteration launches the nonempty window
`links.slice(0, -1) = ["a"]`: a download task starts, and no
configuration error exists anywhere in the loop (`loopStep` has no error
outcome), contradicting the claimed fail-fast abort. -/
theorem C4_counterexample :
    (-1 : Int) ≤ 0 ∧ (loopRun ["a", "b"] (-1) 1).launched = [["a"]] := by
  decide

/-- C4 amended: the batch loop performs no concurrency-limit validation
and can raise no configuration error; with limit 0 and a nonempty link
list it never terminates and never launches any task (every launched
window is empty), and with a negative limit it can launch tasks (see the
counterexample). -/
theorem C4_no_config_check (links : List String) (h : links ≠ []) (n : Nat) :
    ¬ loopDone links 0 n ∧ ((loopRun links 0 n).launched).flatten = [] := by
  have hlen : (0 : Int) < (links.length : Int) := by
    have hne : links.length ≠ 0 := fun h0 => h (List.length_eq_zero.mp h0)
    omega
  have hi : ∀ m, (loopRun links 0 m).i = 0 ∧ ((loopRun links 0 m).launched).flatten = [] := by
    intro m
    induction m with
    | zero => exact ⟨rfl, rfl⟩
    | succ m ih =>
      obtain ⟨ih1, ih2⟩ := ih
      have hstep : loopStep links 0 (loopRun links 0 m) =
          some { i := (loopRun links 0 m).i + 0,
                 launched := (loopRun links 0 m).launched ++
                   [jsSlice links (loopRun links 0 m).i ((loopRun links 0 m).i + 0)] } := by
        unfold loopStep
        rw [if_pos]
        rw [ih1]
        exact hlen
      have hslice : jsSlice links (loopRun links 0 m).i ((loopRun links 0 m).i + 0) = [] := by
        rw [ih1]
        simp [jsSlice, jsSliceIndex]
      simp only [loopRun, hstep, hslice]
      constructor
      · simpa using ih1
      · simp [List.flatten_append, ih2]
  obtain ⟨h1, h2⟩ := hi n
  constructor
  · intro hdone
    unfold loopDone at hdone
    rw [h1] at hdone
    omega
  · exact h2

/-- C10: the modular task of src/src/downloader.js and the legacy task of
src/unnamed/part_002 are observably equivalent up to logging and
rejection-message text: for every parse oracle, task environment and
options they compute the same sanitized stem, issue the same download
invocation (same format id and output path), write the same tag set, and
settle the same way (same success payload, or both rejected). -/
theorem C10_legacy_equivalence (parse : String → Option Json) (env : TaskEnv)
    (opts : Options) :
    stripMsg (yt_dlp parse env opts) = stripMsg (yt_dlp_legacy parse env opts) := by
  unfold yt_dlp yt_dlp_legacy probeParse
  cases env.probe with
  | error msg => rfl
  | ok output =>
    cases hm : includesSub output "Video unavailable" with
    | true => simp [hm, stripMsg, failRun]
    | false =>
      simp only [hm, Bool.false_eq_true, if_false]
      cases hc : (jsonCandidates parse output).head? with
      | none => simp [stripMsg, failRun]
      | some j =>
        cases j with
        | jobj o => simp [truthy]
        | jnull => simp [truthy, stripMsg, failRun]
        | jbool b => cases b <;> simp [truthy, stripMsg, failRun]
        | jnum n => by_cases hn : n = 0 <;> simp [truthy, hn, stripMsg, failRun]
        | jstr s => by_cases hs : s = "" <;> simp [truthy, hs, stripMsg, failRun]

/-- C10 witness: equivalence evaluated at a concrete parse oracle,
environment and options. -/
theorem C10_legacy_equivalence_witness :
    stripMsg (yt_dlp parseC8 envC8 optsC8) = stripMsg (yt_dlp_legacy parseC8 envC8 optsC8) :=
  C10_legacy_equivalence parseC8 envC8 optsC8


theorem yt_dlp_result_eq (parse : String → Option Json) (env : TaskEnv) (opts : Options) :
    (yt_dlp parse env opts).result = taskResultOf parse env.probe env.download opts := by
  obtain ⟨probe, download, http, tagW⟩ := env
  unfold yt_dlp taskResultOf
  dsimp only
  split
  · rfl
  · split
    · rfl
    · split
      · split
        · rfl
        · split
          · rfl
          · split
            · rfl
            · split
              · rfl
              · rfl
      · rfl


theorem yt_dlp_download_shape (parse : String → Option Json) (env : TaskEnv)
    (opts : Options) :
    ∀ fid path, (yt_dlp parse env opts).invoked = some (fid, path) →
      (yt_dlp parse env opts).result =
        (match env.download fid path with
         | .error msg => TaskResult.failure msg
         | .ok _ => TaskResult.success (((yt_dlp parse env opts).stem).getD "") path) := by
  unfold yt_dlp
  dsimp only
  split
  · intro fid path h
    simp [failRun] at h
  · split
    · intro fid path h
      simp [failRun] at h
    · split
      · split
        · intro fid path h
          simp [failRun] at h
        · split
          · intro fid path h
            simp at h
          · split
            · rename_i heq
              intro fid path h
              obtain ⟨hf, hp⟩ := Prod.mk.injEq .. |>.mp (Option.some.inj h)
              subst hf
              subst hp
              rw [heq]
            · rename_i heq
              split
              all_goals
                intro fid path h
                obtain ⟨hf, hp⟩ := Prod.mk.injEq .. |>.mp (Option.some.inj h)
                subst hf
                subst hp
                rw [heq]
                rfl
      · intro fid path h
        simp [failRun] at h

/-- C5: the thumbnail fetcher resolves to no-thumbnail on any non-2xx
status and on any connection/transport error (its executor has no
rejection path at all); the settled result of a task never depends on the
HTTP world or on the tag-write result; and a task that issued its
download invocation and whose download subprocess succeeded resolves to
`Success{title, outputPath}` whatever the thumbnail fetch and tag write
did. -/
theorem C5_thumbnail_best_effort :
    (∀ status chunks, ¬ (200 ≤ status ∧ status ≤ 299) →
      downloadThumbnail (.response status chunks) = none) ∧
    (∀ msg, downloadThumbnail (.netError msg) = none) ∧
    (∀ parse probe download http1 http2 tagW1 tagW2 opts,
      (yt_dlp parse ⟨probe, download, http1, tagW1⟩ opts).result =
        (yt_dlp parse ⟨probe, download, http2, tagW2⟩ opts).result) ∧
    (∀ parse env opts fid path,
      (yt_dlp parse env opts).invoked = some (fid, path) →
      env.download fid path = .ok () →
      (yt_dlp parse env opts).result =
        .success (((yt_dlp parse env opts).stem).getD "") path) := by
  refine ⟨?_, ?_, ?_, ?_⟩
  · intro status chunks hst
    have hne : status ≠ 200 := by omega
    simp [downloadThumbnail, hne]
  · intro msg
    rfl
  · intro parse probe download http1 http2 tagW1 tagW2 opts
    rw [yt_dlp_result_eq, yt_dlp_result_eq]
  · intro parse env opts fid path hinv hok
    have hshape := yt_dlp_download_shape parse env opts fid path hinv
    rw [hok] at hshape
    exact hshape


/-- C1: for every ordered link list and every concurrency limit K ≥ 1 the
batch scheduler partitions the links into consecutive nonempty windows of
size at most K with every non-final window of size exactly K; in every
valid run trace at most K tasks are active at any instant (every trace
prefix has at most K started-but-unsettled tasks); and no task of window
iw+1 starts before every task of window iw has settled. -/
theorem C1_batch_scheduler_windows (links : List String) (k : Nat) (hk : 1 ≤ k)
    (f : Nat → TaskResult) (segs : List (List Event))
    (hval : ValidWindows f links.length k segs) :
    ((batches links k).flatten = links ∧
      (∀ w ∈ batches links k, w ≠ [] ∧ w.length ≤ k) ∧
      ∀ w ∈ (batches links k).dropLast, w.length = k) ∧
    (∀ p q, segs.flatten = p ++ q → active p ≤ (k : Int)) ∧
    (∀ iw j j2, j ∈ (windowIdx links.length k).getD (iw + 1) [] →
      j2 ∈ (windowIdx links.length k).getD iw [] →
      ∀ p q, segs.flatten = p ++ Event.start j :: q →
      Event.settle j2 (f j2) ∈ p) := by
  have hval2 : List.Forall₂ (ValidSeg f) (windowIdx links.length k) segs := hval
  have hwinshape : ∀ w ∈ windowIdx links.length k, w ≠ [] ∧ w.length ≤ k := by
    intro w hw
    exact batchesAux_shape k hk (List.range links.length).length (List.range links.length)
      (Nat.le_refl _) w hw
  have hwinflat : (windowIdx links.length k).flatten = List.range links.length :=
    batches_flatten (List.range links.length) k hk
  refine ⟨⟨batches_flatten links k hk,
    fun w hw => batchesAux_shape k hk links.length links (Nat.le_refl _) w hw,
    fun w hw => batchesAux_dropLast k hk links.length links (Nat.le_refl _) w hw⟩, ?_, ?_⟩
  · exact active_bound hval2 k (fun w hw => (hwinshape w hw).2)
  · have hnodup : (windowIdx links.length k).flatten.Nodup := by
      rw [hwinflat]
      exact List.nodup_range _
    have hdisj := (List.nodup_flatten.mp hnodup).2
    intro iw j j2 hj hj2 p q hpq
    exact barrier_lemma hval2 hdisj (iw + 1) iw (Nat.lt_succ_self iw) j hj j2 hj2 p q hpq

/-- C2: for every link list, concurrency limit K ≥ 1 and valid run trace,
the concatenation of the per-window `allSettled` results is exactly one
settled outcome per input link, index-aligned with the links (position i
holds the result of the task run on links[i]) regardless of the order in
which tasks settled inside their windows, and its length equals the
number of input links. -/
theorem C2_batchresult_alignment (links : List String) (k : Nat) (hk : 1 ≤ k)
    (parse : String → Option Json) (envs : String → TaskEnv) (opts : Options)
    (segs : List (List Event))
    (hval : ValidWindows
      (fun j => (yt_dlp parse (envs (links.getD j "")) opts).result) links.length k segs) :
    batchResults (windowIdx links.length k) segs =
      (List.range links.length).map
        (fun j => some ((yt_dlp parse (envs (links.getD j "")) opts).result)) ∧
    (batchResults (windowIdx links.length k) segs).length = links.length ∧
    ∀ i, i < links.length →
      (batchResults (windowIdx links.length k) segs).getD i none =
        some ((yt_dlp parse (envs (links.getD i "")) opts).result) := by
  have hval2 : List.Forall₂
      (ValidSeg (fun j => (yt_dlp parse (envs (links.getD j "")) opts).result))
      (windowIdx links.length k) segs := hval
  have hwinflat : (windowIdx links.length k).flatten = List.range links.length :=
    batches_flatten (List.range links.length) k hk
  have hnodup : (windowIdx links.length k).flatten.Nodup := by
    rw [hwinflat]
    exact List.nodup_range _
  have hnd : ∀ w ∈ windowIdx links.length k, w.Nodup :=
    fun w hw => (List.nodup_flatten.mp hnodup).1 w hw
  have hmain := batchResults_eq hval2 hnd
  rw [hwinflat] at hmain
  refine ⟨hmain, ?_, ?_⟩
  · rw [hmain]
    simp
  · intro i hi
    rw [hmain]
    rw [List.getD_eq_getElem _ _ (by simpa using hi)]
    simp

/-- C3: a task whose probe output contains the unavailable marker settles
as `Failed` with the unavailable message, and only that task: the run
still produces exactly one outcome per input link across all windows, and
the outcome at every other position is the task's own result, unaffected
by the failing sibling. -/
theorem C3_failure_isolation (parse : String → Option Json) (envs : String → TaskEnv)
    (opts : Options) (links : List String) (k : Nat) (hk : 1 ≤ k)
    (bad out : String)
    (hp : (envs bad).probe = .ok out)
    (hm : includesSub out "Video unavailable" = true) :
    runResults parse envs opts links k =
      links.map (fun link => (yt_dlp parse (envs link) opts).result) ∧
    (runResults parse envs opts links k).length = links.length ∧
    ∀ i, i < links.length →
      (runResults parse envs opts links k).getD i (.failure "") =
        (if links.getD i "" = bad then .failure unavailableMsg
         else (yt_dlp parse (envs (links.getD i "")) opts).result) := by
  have hpp : probeParse parse out = .error unavailableMsg := by
    unfold probeParse
    simp [hm]
  have hbad : (yt_dlp parse (envs bad) opts).result = .failure unavailableMsg := by
    unfold yt_dlp
    simp only [hp, hpp]
    rfl
  have hflat : runResults parse envs opts links k =
      links.map (fun link => (yt_dlp parse (envs link) opts).result) := by
    unfold runResults
    rw [← List.map_flatten, batches_flatten links k hk]
  refine ⟨hflat, ?_, ?_⟩
  · rw [hflat]
    simp
  · intro i hi
    have hgd : links.getD i "" = links[i] := List.getD_eq_getElem links "" hi
    rw [hflat]
    rw [List.getD_eq_getElem _ _ (by simpa using hi)]
    rw [List.getElem_map]
    rw [hgd]
    by_cases hb : links[i] = bad
    · rw [if_pos hb, hb, hbad]
    · rw [if_neg hb]


/-- C1 witness: a three-link run with window size 2 evaluated on a
concrete valid trace. -/
theorem C1_batch_scheduler_windows_witness :
    (batches ["a", "b", "c"] 2).flatten = ["a", "b", "c"] ∧
    active [Event.start 0, Event.start 1] ≤ (2 : Int) ∧
    Event.settle 0 (TaskResult.failure "x") ∈
      [Event.start 0, Event.start 1, Event.settle 1 (TaskResult.failure "x"),
       Event.settle 0 (TaskResult.failure "x")] := by
  have h := C1_batch_scheduler_windows ["a", "b", "c"] 2 (by decide)
    (fun _ => TaskResult.failure "x")
    [[Event.start 0, Event.start 1, Event.settle 1 (TaskResult.failure "x"),
      Event.settle 0 (TaskResult.failure "x")],
     [Event.start 2, Event.settle 2 (TaskResult.failure "x")]]
    (by refine List.Forall₂.cons ?_ (List.Forall₂.cons ?_ List.Forall₂.nil) <;> decide)
  refine ⟨h.1.1, ?_, ?_⟩
  · exact h.2.1 [Event.start 0, Event.start 1]
      [Event.settle 1 (TaskResult.failure "x"), Event.settle 0 (TaskResult.failure "x"),
       Event.start 2, Event.settle 2 (TaskResult.failure "x")] rfl
  · exact h.2.2 0 2 0 (by decide) (by decide)
      [Event.start 0, Event.start 1, Event.settle 1 (TaskResult.failure "x"),
       Event.settle 0 (TaskResult.failure "x")]
      [Event.settle 2 (TaskResult.failure "x")] rfl

/-- C2 witness: a one-link run evaluated on a concrete trace; the settled
result lands at position 0. -/
theorem C2_batchresult_alignment_witness :
    batchResults (windowIdx 1 1)
      [[Event.start 0, Event.settle 0 (TaskResult.failure "boom")]] =
      [some (TaskResult.failure "boom")] := by
  have h := C2_batchresult_alignment ["u"] 1 (by decide) parseNone (fun _ => envFail)
    {} [[Event.start 0, Event.settle 0 (TaskResult.failure "boom")]]
    (by refine List.Forall₂.cons ?_ List.Forall₂.nil
        decide)
  exact h.1.trans (by decide)

/-- C3 witness: of two links, the first hits an unavailable video and
fails with the unavailable message, the second settles with its own
(unrelated) failure, and both outcomes are reported. -/
theorem C3_failure_isolation_witness :
    (runResults parseNone envsC3 {} ["x", "y"] 1).length = 2 ∧
    (runResults parseNone envsC3 {} ["x", "y"] 1).getD 0 (.failure "") =
      .failure unavailableMsg ∧
    (runResults parseNone envsC3 {} ["x", "y"] 1).getD 1 (.failure "") =
      .failure "boom" := by
  have h := C3_failure_isolation parseNone envsC3 {} ["x", "y"] 1 (by decide)
    "x" "ERROR: Video unavailable" (by decide) (by decide)
  exact ⟨h.2.1, (h.2.2 0 (by decide)).trans (by decide),
    (h.2.2 1 (by decide)).trans (by decide)⟩

/-- C4 witness: with concurrency 0 and one link the loop is still running
after five iterations and has launched no task. -/
theorem C4_no_config_check_witness :
    ¬ loopDone ["z"] 0 5 ∧ ((loopRun ["z"] 0 5).launched).flatten = [] :=
  C4_no_config_check ["z"] (by decide) 5

/-- C5 witness: a 404 response and a connection error both yield
no-thumbnail, and the C8 fixture task (broken network, download ok)
still resolves successfully. -/
theorem C5_thumbnail_best_effort_witness :
    downloadThumbnail (.response 404 [[1, 2]]) = none ∧
    downloadThumbnail (.netError "ECONNREFUSED") = none ∧
    (yt_dlp parseC8 envC8 optsC8).result = .success "" "out/.mp3" := by
  have h := C5_thumbnail_best_effort
  refine ⟨h.1 404 [[1, 2]] (by omega), h.2.1 "ECONNREFUSED", ?_⟩
  have h4 := h.2.2.2 parseC8 envC8 optsC8 "140" "out/.mp3" (by decide) (by decide)
  exact h4.trans (by decide)

/-- C6 witness: the amended characterization applied to the concrete
counterexample output. -/
theorem C6_first_truthy_json_witness :
    probeParse parseC6 "null\nobjline" = .error parseFailMsg :=
  (C6_first_truthy_json parseC6 "null\nobjline" (by decide)).2.mpr
    (Or.inr ⟨Json.jnull, by decide, by decide⟩)

/-- C7 witness: an explicit id is used unchanged when the filtered list
is nonempty. -/
theorem C7_format_selection_witness :
    selectStage true (some "007") [{ format_id := "140", resolution := some "audio only" }] =
      .ok "007" :=
  (C7_format_selection true (some "007")
    [{ format_id := "140", resolution := some "audio only" }]).2.1 "007" rfl
    (by decide) (by decide)

/-- C8 witness: the amended claim evaluated on the concrete fixture. -/
theorem C8_empty_stem_proceeds_witness :
    (yt_dlp parseC8 envC8 optsC8).stem = some "" ∧
    (yt_dlp parseC8 envC8 optsC8).invoked = some ("140", "out/.mp3") := by
  have h := C8_empty_stem_proceeds parseC8 envC8 optsC8 "titleline"
    { title := some "!!!",
      formats := [{ format_id := "140", resolution := some "audio only" }] } "!!!"
    (by decide) (by decide) (by decide) (by decide)
  exact ⟨h.1, (h.2 "140" (by decide)).trans (by decide)⟩



theorem batchesAux_eq_of_length_le (k : Nat) (hk : 1 ≤ k) :
    ∀ (fuel : Nat) (l : List α), l.length ≤ fuel →
      batchesAux k fuel l = batchesAux k l.length l := by
  intro fuel
  induction fuel using Nat.strong_induction_on with
  | _ fuel ih =>
    intro l hl
    match fuel, l with
    | 0, l =>
      have : l = [] := List.length_eq_zero.mp (Nat.le_zero.mp hl)
      subst this
      rfl
    | n + 1, [] => rw [batchesAux_nil, batchesAux_nil]
    | n + 1, x :: xs =>
      have hd : ((x :: xs).drop k).length = (x :: xs).length - k := List.length_drop k _
      have hlen : (x :: xs).length = xs.length + 1 := rfl
      have h1 : batchesAux k (n + 1) (x :: xs) =
          (x :: xs).take k :: batchesAux k n ((x :: xs).drop k) := rfl
      have h2 : batchesAux k (x :: xs).length (x :: xs) =
          (x :: xs).take k :: batchesAux k xs.length ((x :: xs).drop k) := rfl
      rw [h1, h2, ih n (Nat.lt_succ_self n) _ (by omega),
        ih xs.length (by omega) _ (by omega)]

theorem batchesAux_eq_of_le_mul (k : Nat) (hk : 1 ≤ k) :
    ∀ (fuel : Nat) (l : List α), l.length ≤ fuel * k →
      batchesAux k fuel l = batches l k := by
  intro fuel
  induction fuel with
  | zero =>
    intro l hl
    have : l = [] := by
      simpa using hl
    subst this
    rfl
  | succ n ih =>
    intro l hl
    match l with
    | [] => rw [batchesAux_nil]; rfl
    | x :: xs =>
      have hd : ((x :: xs).drop k).length = (x :: xs).length - k := List.length_drop k _
      have hlen : (x :: xs).length = xs.length + 1 := rfl
      have h1 : batchesAux k (n + 1) (x :: xs) =
          (x :: xs).take k :: batchesAux k n ((x :: xs).drop k) := rfl
      have h2 : batches (x :: xs) k =
          (x :: xs).take k :: batchesAux k xs.length ((x :: xs).drop k) := rfl
      have hmul : (n + 1) * k = n * k + k := Nat.succ_mul n k
      rw [h1, h2, ih _ (by omega),
        batchesAux_eq_of_length_le k hk xs.length ((x :: xs).drop k) (by omega)]
      rfl

theorem batchesAux_snoc (k : Nat) (_hk : 1 ≤ k) :
    ∀ (m : Nat) (l : List α), m * k < l.length →
      batchesAux k (m + 1) l = batchesAux k m l ++ [(l.drop (m * k)).take k] := by
  intro m
  induction m with
  | zero =>
    intro l hl
    match l with
    | [] => simp at hl
    | x :: xs =>
      rw [Nat.zero_mul, List.drop_zero]
      have h1 : batchesAux k (0 + 1) (x :: xs) =
          (x :: xs).take k :: batchesAux k 0 ((x :: xs).drop k) := rfl
      rw [h1, batchesAux_zero, batchesAux_zero]
      rfl
  | succ m ih =>
    intro l hl
    have hmul : (m + 1) * k = m * k + k := Nat.succ_mul m k
    match l with
    | [] => simp at hl
    | x :: xs =>
      have hd : ((x :: xs).drop k).length = (x :: xs).length - k := List.length_drop k _
      have h1 : batchesAux k (m + 1 + 1) (x :: xs) =
          (x :: xs).take k :: batchesAux k (m + 1) ((x :: xs).drop k) := rfl
      have h2 : batchesAux k (m + 1) (x :: xs) =
          (x :: xs).take k :: batchesAux k m ((x :: xs).drop k) := rfl
      rw [h1, ih _ (by omega), h2]
      rw [List.drop_drop]
      have hidx : k + m * k = (m + 1) * k := by
        rw [Nat.succ_mul]
        omega
      rw [hidx]
      rfl

theorem jsSlice_natCast (l : List α) (a b : Nat) :
    jsSlice l (a : Int) ((a : Int) + (b : Int)) = (l.drop a).take b := by
  unfold jsSlice jsSliceIndex
  have h1 : ¬ ((a : Int) < 0) := by omega
  have h2 : ¬ ((a : Int) + (b : Int) < 0) := by omega
  rw [if_neg h1, if_neg h2]
  have h3 : ((a : Int) + (b : Int)).toNat = a + b := by omega
  have h4 : ((a : Int)).toNat = a := Int.toNat_natCast a
  rw [h3, h4]
  by_cases ha : a ≤ l.length
  · rw [Nat.min_eq_left ha]
    by_cases hab : a + b ≤ l.length
    · rw [Nat.min_eq_left hab, List.drop_take]
      rw [Nat.add_sub_cancel_left]
    · rw [Nat.min_eq_right (Nat.le_of_not_le hab), List.take_length]
      have hblen : (l.drop a).length ≤ b := by
        rw [List.length_drop]
        omega
      rw [List.take_of_length_le hblen]
  · have halen : l.length ≤ a := Nat.le_of_not_le ha
    rw [Nat.min_eq_right halen]
    have hmin : min (a + b) l.length = l.length := Nat.min_eq_right (by omega)
    rw [hmin, List.take_length]
    rw [List.drop_eq_nil_of_le (Nat.le_refl _), List.drop_eq_nil_of_le halen]
    simp

theorem loopRun_running (links : List String) (k : Nat) (hk : 1 ≤ k) :
    ∀ m, (∀ m2, m2 < m → m2 * k < links.length) →
      loopRun links k m =
        { i := ((m * k : Nat) : Int), launched := batchesAux k m links } := by
  intro m
  induction m with
  | zero =>
    intro _
    show ({ i := 0, launched := [] } : LoopState) =
      { i := ((0 * k : Nat) : Int), launched := batchesAux k 0 links }
    rw [Nat.zero_mul, batchesAux_zero]
    rfl
  | succ m ih =>
    intro hrun
    have hm : m * k < links.length := hrun m (Nat.lt_succ_self m)
    have hprev := ih (fun m2 h2 => hrun m2 (Nat.lt_succ_of_lt h2))
    have hguard : ((m * k : Nat) : Int) < (links.length : Int) := by
      exact_mod_cast hm
    have hstep : loopStep links k (loopRun links k m) =
        some { i := ((m * k : Nat) : Int) + (k : Int),
               launched := batchesAux k m links ++
                 [jsSlice links ((m * k : Nat) : Int) (((m * k : Nat) : Int) + (k : Int))] } := by
      rw [hprev]
      unfold loopStep
      rw [if_pos hguard]
    have hcast : ((m * k : Nat) : Int) + (k : Int) = (((m + 1) * k : Nat) : Int) := by
      push_cast
      ring
    have hsl : jsSlice links ((m * k : Nat) : Int) (((m * k : Nat) : Int) + (k : Int)) =
        (links.drop (m * k)).take k := jsSlice_natCast links (m * k) k
    show (match loopStep links k (loopRun links k m) with
          | some s2 => s2
          | none => loopRun links k m) = _
    rw [hstep]
    show ({ i := ((m * k : Nat) : Int) + (k : Int),
            launched := batchesAux k m links ++
              [jsSlice links ((m * k : Nat) : Int) (((m * k : Nat) : Int) + (k : Int))] } :
        LoopState) = _
    rw [hsl, hcast, ← batchesAux_snoc k hk m links hm]

theorem loopRun_bridge (links : List String) (k : Nat) (hk : 1 ≤ k) :
    ∃ n, loopDone links k n ∧ (loopRun links k n).launched = batches links k := by
  have hex : ∃ m, links.length ≤ m * k := by
    refine ⟨links.length, ?_⟩
    calc links.length = links.length * 1 := (Nat.mul_one _).symm
    _ ≤ links.length * k := Nat.mul_le_mul_left _ hk
  classical
  let m0 := Nat.find hex
  have hspec : links.length ≤ m0 * k := Nat.find_spec hex
  have hmin : ∀ m2, m2 < m0 → ¬ links.length ≤ m2 * k := fun m2 h2 => Nat.find_min hex h2
  refine ⟨m0, ?_, ?_⟩
  · unfold loopDone
    rw [loopRun_running links k hk m0 (fun m2 h2 => Nat.lt_of_not_le (hmin m2 h2))]
    show (links.length : Int) ≤ ((m0 * k : Nat) : Int)
    exact_mod_cast hspec
  · rw [loopRun_running links k hk m0 (fun m2 h2 => Nat.lt_of_not_le (hmin m2 h2))]
    exact batchesAux_eq_of_le_mul k hk m0 links hspec

end BookmarkDlp
